import Mathlib

/-
Shallow embedding of the stock-reward ledger engine:
  - src/models/rewardEvent.js, src/models/ledgerEntry.js   (data model)
  - src/controllers/rewardController.js (createReward)
  - src/services/priceService.js (getLatestPrice)
  - src/services/corporateActionService.js (processStockSplit, processMerger,
    processDelisting)
Machine floats are modelled as exact rationals, Mongo Decimal128 likewise;
timestamps are integers (milliseconds).  Free-text description and notes
fields are not modelled (they carry interpolated display strings only).
-/

namespace StockProject

/-- Lifecycle status of a RewardEvent (rewardEvent.js lines 37-42). -/
inductive RStatus
  | ACTIVE
  | ADJUSTED
  | CANCELLED
  | REFUNDED
deriving DecidableEq

/-- Ledger account enumeration (ledgerEntry.js lines 16-30). -/
inductive Account
  | USER_PORTFOLIO
  | COMPANY_CASH
  | BROKERAGE_EXPENSE
  | STT_EXPENSE
  | GST_EXPENSE
  | STAMP_DUTY_EXPENSE
  | SEBI_FEES_EXPENSE
  | EXCHANGE_FEES_EXPENSE
deriving DecidableEq

/-- Debit or credit direction of a ledger line (ledgerEntry.js lines 31-35). -/
inductive EntryType
  | DEBIT
  | CREDIT
deriving DecidableEq

/-- A RewardEvent document (rewardEvent.js).  `id` stands for the Mongo
`_id`, modelled as a Nat handed out by a per-state counter. -/
structure RewardEvt where
  id : Nat
  userId : String
  stockSymbol : String
  quantity : ℚ
  timestamp : Int
  idempotencyKey : Option String
  status : RStatus
  adjustmentReason : Option String
  parentRewardId : Option Nat
  originalQuantity : Option ℚ
deriving DecidableEq

/-- A LedgerEntry document (ledgerEntry.js).  `stockSymbol`, `quantity` and
`inrAmount` are optional exactly as in the schema (conditionally required).
The controller also passes a `timestamp` field, but the ledger schema has no
such path, so Mongoose drops it; it is not modelled. -/
structure LedgerLine where
  transactionId : Nat
  userId : String
  account : Account
  entryType : EntryType
  stockSymbol : Option String
  quantity : Option ℚ
  inrAmount : Option ℚ
  status : String
deriving DecidableEq

/-- The backing store: the RewardEvent and LedgerEntry collections plus the
id counter used for freshly created documents. -/
structure St where
  events : List RewardEvt
  entries : List LedgerLine
  nextId : Nat
deriving DecidableEq

/-- ledgerEntry.js lines 96-108, `validateTransaction`: find all entries of
the transaction, fold the signed inrAmount (DEBIT positive, CREDIT negative,
missing amount contributes 0) and compare the absolute balance against the
0.0001 tolerance. -/
def validateTransaction (entries : List LedgerLine) (transactionId : Nat) : Bool :=
  decide
    (|(entries.filter (fun e => decide (e.transactionId = transactionId))).foldl
        (fun acc e =>
          let amount : ℚ := match e.inrAmount with
            | some a => a
            | none => 0
          acc + (match e.entryType with
            | EntryType.DEBIT => amount
            | EntryType.CREDIT => -amount))
        (0 : ℚ)| < 1 / 10000)

/-- The signed monetary value of one ledger line: its inrAmount counted
positive for DEBIT and negative for CREDIT, 0 when the line carries no
monetary amount (stock-quantity lines). -/
def signedAmount (e : LedgerLine) : ℚ :=
  match e.inrAmount with
  | some a =>
      match e.entryType with
      | EntryType.DEBIT => a
      | EntryType.CREDIT => -a
  | none => 0

/-- Stated from the spec wording of the validation property: the signed sum
of the monetary (inrAmount-bearing) lines sharing the transaction
identifier, ignoring stock-quantity lines.  Compared against
`validateTransaction` in the C7 theorem. -/
def monetarySignedSum (entries : List LedgerLine) (transactionId : Nat) : ℚ :=
  ((entries.filter
      (fun e => decide (e.transactionId = transactionId ∧ e.inrAmount ≠ none))).map
    signedAmount).sum

/-- Mongoose field normalization `uppercase: true, trim: true`, matching
the JS `stockSymbol.toUpperCase().trim()` in priceService.js line 30.
Implemented structurally on the character list so the kernel can
evaluate it on concrete symbols. -/
def normSym (s : String) : String :=
  ⟨(((s.data.map Char.toUpper).dropWhile Char.isWhitespace).reverse.dropWhile
      Char.isWhitespace).reverse⟩

/-- `RewardEvent.findOne({ idempotencyKey })` (rewardController.js line 29). -/
def findOneByKey (k : String) (events : List RewardEvt) : Option RewardEvt :=
  events.find? (fun e => decide (e.idempotencyKey = some k))

/-- `RewardEvent.create` as the backing store runs it for the controller:
the schema (rewardEvent.js lines 31-36) makes `idempotencyKey` required and
puts a unique index on it, so the insert throws when the key is absent or
when a document with the same key is already committed; otherwise the
document is appended and the id counter advances. -/
def rewardEventCreate (e : RewardEvt) (s : St) : Option St :=
  match e.idempotencyKey with
  | none => none
  | some k =>
      if s.events.any (fun x => decide (x.idempotencyKey = some k)) then none
      else some { s with events := s.events ++ [e], nextId := s.nextId + 1 }

/-- 0.1% brokerage (rewardController.js line 59). -/
def brokerageRate : ℚ := 1 / 1000

/-- 0.025% securities transaction tax (rewardController.js line 60). -/
def sttRate : ℚ := 25 / 100000

/-- 18% GST, charged on the brokerage (rewardController.js line 61). -/
def gstRate : ℚ := 18 / 100

/-- The fee/value breakdown returned in `transactionDetails` of the 201
response (rewardController.js lines 135-143; the response formats each
number with four decimals, the underlying values are these). -/
structure FeeBreakdown where
  inrValue : ℚ
  brokerage : ℚ
  stt : ℚ
  gst : ℚ
  totalFees : ℚ
deriving DecidableEq

/-- The five ledger lines posted for one reward (rewardController.js lines
69-123), in creation order: company-cash debit for the full INR value (this
line also carries the stock symbol and quantity, as in the source), one
debit per fee, and the user-portfolio credit for the stock quantity. -/
def rewardLines (userId symNorm : String) (shares inrValue brokerage stt gst : ℚ)
    (transactionId : Nat) : List LedgerLine :=
  [ { transactionId := transactionId, userId := userId,
      account := Account.COMPANY_CASH, entryType := EntryType.DEBIT,
      stockSymbol := some symNorm, quantity := some shares,
      inrAmount := some inrValue, status := "COMPLETED" },
    { transactionId := transactionId, userId := userId,
      account := Account.BROKERAGE_EXPENSE, entryType := EntryType.DEBIT,
      stockSymbol := none, quantity := none,
      inrAmount := some brokerage, status := "COMPLETED" },
    { transactionId := transactionId, userId := userId,
      account := Account.STT_EXPENSE, entryType := EntryType.DEBIT,
      stockSymbol := none, quantity := none,
      inrAmount := some stt, status := "COMPLETED" },
    { transactionId := transactionId, userId := userId,
      account := Account.GST_EXPENSE, entryType := EntryType.DEBIT,
      stockSymbol := none, quantity := none,
      inrAmount := some gst, status := "COMPLETED" },
    { transactionId := transactionId, userId := userId,
      account := Account.USER_PORTFOLIO, entryType := EntryType.CREDIT,
      stockSymbol := some symNorm, quantity := some shares,
      inrAmount := none, status := "COMPLETED" } ]

/-- Outcome observed by a `createReward` caller: HTTP 400, the 200
already-recorded response, the 201 created response, or the catch-all
HTTP 500. -/
inductive CRResult
  | badRequest
  | alreadyRecorded (existing : RewardEvt)
  | created (rewardEvent : RewardEvt) (fees : FeeBreakdown)
  | serverError
deriving DecidableEq

/-- The RewardEvent document built at rewardController.js lines 39-45:
status defaults to ACTIVE, the symbol is normalized by the schema, `n` is
the store-assigned identifier. -/
def freshRewardEvent (userId stockSymbol : String) (parsedShares : ℚ)
    (idempotencyKey : Option String) (timestamp : Int) (n : Nat) : RewardEvt :=
  { id := n, userId := userId, stockSymbol := normSym stockSymbol,
    quantity := parsedShares, timestamp := timestamp,
    idempotencyKey := idempotencyKey, status := RStatus.ACTIVE,
    adjustmentReason := none, parentRewardId := none,
    originalQuantity := none }

/-- rewardController.js lines 38-144: the part of `createReward` after the
validation and the idempotency pre-check.  Creates the RewardEvent, then
fetches the price (`priceResult` stands for the outcome of
`priceService.getLatestPrice`; `none` models a thrown error), computes the
fees and posts the five ledger lines.  Every thrown error lands in the
catch-all (lines 145-150) as a 500 response; note the RewardEvent committed
at line 39 is never rolled back there. -/
def createRewardCommit (userId stockSymbol : String) (parsedShares : ℚ)
    (idempotencyKey : Option String) (timestamp : Int) (priceResult : Option ℚ)
    (s : St) : CRResult × St :=
  let rewardEvent : RewardEvt :=
    freshRewardEvent userId stockSymbol parsedShares idempotencyKey timestamp
      s.nextId
  match rewardEventCreate rewardEvent s with
  | none => (CRResult.serverError, s)
  | some s1 =>
      match priceResult with
      | none => (CRResult.serverError, s1)
      | some price =>
          if price ≤ 0 then (CRResult.serverError, s1)
          else
            let inrValue := parsedShares * price
            let brokerage := inrValue * brokerageRate
            let stt := inrValue * sttRate
            let gst := brokerage * gstRate
            let totalFees := brokerage + stt + gst
            (CRResult.created rewardEvent
              ⟨inrValue, brokerage, stt, gst, totalFees⟩,
              { s1 with entries := s1.entries ++
                  (rewardLines userId (normSym stockSymbol) parsedShares
                    inrValue brokerage stt gst rewardEvent.id) })

/-- rewardController.js lines 7-151, `createReward`: validate the input
(missing fields and non-positive shares are a 400), run the application
level idempotency pre-check (`findOne` on the key, lines 28-36), then hand
over to the commit phase.  `shares = none` models an absent or unparsable
shares field. -/
def createReward (userId stockSymbol : String) (shares : Option ℚ)
    (idempotencyKey : Option String) (timestamp : Int) (priceResult : Option ℚ)
    (s : St) : CRResult × St :=
  match shares with
  | none => (CRResult.badRequest, s)
  | some parsedShares =>
      if userId = "" ∨ stockSymbol = "" then (CRResult.badRequest, s)
      else if parsedShares ≤ 0 then (CRResult.badRequest, s)
      else
        match (match idempotencyKey with
               | some k => findOneByKey k s.events
               | none => none) with
        | some existingReward => (CRResult.alreadyRecorded existingReward, s)
        | none =>
            createRewardCommit userId stockSymbol parsedShares idempotencyKey
              timestamp priceResult s

/-- The selection query shared by the three corporate action handlers
(corporateActionService.js lines 9-13, 60-64, 117-121): ACTIVE RewardEvents
of the symbol timestamped strictly before the effective date. -/
def activeBefore (stockSymbol : String) (effectiveDate : Int)
    (e : RewardEvt) : Bool :=
  decide (e.stockSymbol = stockSymbol) && decide (e.status = RStatus.ACTIVE)
    && decide (e.timestamp < effectiveDate)

/-- The wall-clock-derived idempotency key of a split adjustment event
(corporateActionService.js line 24): SPLIT_<originalEventId>_<Date.now()>. -/
def splitKey (eventId : Nat) (now : Int) : String :=
  "SPLIT_" ++ toString eventId ++ "_" ++ toString now

/-- corporateActionService.js line 75: MERGER_<originalEventId>_<Date.now()>. -/
def mergerKey (eventId : Nat) (now : Int) : String :=
  "MERGER_" ++ toString eventId ++ "_" ++ toString now

/-- `event.save()` after the handler sets `status = "ADJUSTED"` and the
adjustment reason: the store rewrites the document with the matching id. -/
def flipAdjusted (reason : String) (targetId : Nat) (e : RewardEvt) : RewardEvt :=
  if e.id = targetId then
    { e with status := RStatus.ADJUSTED, adjustmentReason := some reason }
  else e

/-- The delta adjustment event the split loop creates for original `e`
under the store-assigned id `n` (corporateActionService.js lines 19-30):
quantity is `newQuantity - originalQuantity` with
`newQuantity = originalQuantity * (to / from)`. -/
def splitAdjEvt (stockSymbol : String) (ratioFrom ratioTo : ℚ)
    (effectiveDate now : Int) (n : Nat) (e : RewardEvt) : RewardEvt :=
  { id := n, userId := e.userId, stockSymbol := stockSymbol,
    quantity := e.quantity * (ratioTo / ratioFrom) - e.quantity,
    timestamp := effectiveDate,
    idempotencyKey := some (splitKey e.id now),
    status := RStatus.ADJUSTED, adjustmentReason := some "STOCK_SPLIT",
    parentRewardId := some e.id, originalQuantity := some e.quantity }

/-- The USER_PORTFOLIO credit line the split loop posts for the delta of
original `e`, under the adjustment event id `n` (corporateActionService.js
lines 36-45). -/
def splitEntry (stockSymbol : String) (ratioFrom ratioTo : ℚ) (n : Nat)
    (e : RewardEvt) : LedgerLine :=
  { transactionId := n, userId := e.userId,
    account := Account.USER_PORTFOLIO, entryType := EntryType.CREDIT,
    stockSymbol := some stockSymbol,
    quantity := some (e.quantity * (ratioTo / ratioFrom) - e.quantity),
    inrAmount := none, status := "COMPLETED" }

/-- One iteration of the split loop (corporateActionService.js lines
15-46): create the delta adjustment event (status ADJUSTED, quantity
newQuantity - originalQuantity, parent link to the original), flip the
original to ADJUSTED, and post the USER_PORTFOLIO credit line for the
delta under the adjustment event identifier. -/
def processStockSplitStep (stockSymbol : String) (ratioFrom ratioTo : ℚ)
    (effectiveDate now : Int) (s : St) (e : RewardEvt) : St :=
  { events := (s.events
      ++ [splitAdjEvt stockSymbol ratioFrom ratioTo effectiveDate now
            s.nextId e]).map (flipAdjusted "STOCK_SPLIT" e.id),
    entries := s.entries
      ++ [splitEntry stockSymbol ratioFrom ratioTo s.nextId e],
    nextId := s.nextId + 1 }

/-- corporateActionService.js lines 6-52, `processStockSplit`: select the
ACTIVE events of the symbol before the effective date once, then run the
adjustment loop over the selection.  The closing
`StockCorporateAction.updateOne` touches only the corporate-actions
collection, which holds no reward or ledger records and is outside `St`. -/
def processStockSplit (stockSymbol : String) (ratioFrom ratioTo : ℚ)
    (effectiveDate now : Int) (s : St) : St :=
  (s.events.filter (activeBefore stockSymbol effectiveDate)).foldl
    (processStockSplitStep stockSymbol ratioFrom ratioTo effectiveDate now) s

/-- An original event after its handler flip: status ADJUSTED with the
adjustment reason attached, every other field (quantity included)
unchanged. -/
def adjustedOriginal (reason : String) (e : RewardEvt) : RewardEvt :=
  { e with status := RStatus.ADJUSTED, adjustmentReason := some reason }

/-- Proof vocabulary for the split loop: the cumulative effect of the
status flips on a pre-existing event, over the ids of the processed
originals. -/
def flipAll (reason : String) (ids : List Nat) (e : RewardEvt) : RewardEvt :=
  if e.id ∈ ids then adjustedOriginal reason e else e

/-- Proof vocabulary: the adjustment events the split loop appends for the
selected originals, store ids assigned consecutively from `n`. -/
def splitAdjList (stockSymbol : String) (ratioFrom ratioTo : ℚ)
    (effectiveDate now : Int) (n : Nat) : List RewardEvt → List RewardEvt
  | [] => []
  | e :: rest =>
      splitAdjEvt stockSymbol ratioFrom ratioTo effectiveDate now n e
        :: splitAdjList stockSymbol ratioFrom ratioTo effectiveDate now
            (n + 1) rest

/-- Proof vocabulary: the delta credit lines the split loop appends,
transaction ids assigned consecutively from `n`. -/
def splitEntryList (stockSymbol : String) (ratioFrom ratioTo : ℚ) (n : Nat) :
    List RewardEvt → List LedgerLine
  | [] => []
  | e :: rest =>
      splitEntry stockSymbol ratioFrom ratioTo n e
        :: splitEntryList stockSymbol ratioFrom ratioTo (n + 1) rest

/-- One iteration of the merger loop (corporateActionService.js lines
66-108): create the new-symbol event carrying `oldQuantity * exchange
ratio` (status ADJUSTED, parent link), flip the original, and post the
old-symbol portfolio debit plus the new-symbol portfolio credit. -/
def processMergerStep (oldStockSymbol newStockSymbol : String)
    (exchangeRate : ℚ) (effectiveDate now : Int) (s : St) (e : RewardEvt) : St :=
  let oldQuantity := e.quantity
  let newQuantity := oldQuantity * exchangeRate
  let mergerEvent : RewardEvt :=
    { id := s.nextId, userId := e.userId, stockSymbol := newStockSymbol,
      quantity := newQuantity, timestamp := effectiveDate,
      idempotencyKey := some (mergerKey e.id now),
      status := RStatus.ADJUSTED, adjustmentReason := some "MERGER",
      parentRewardId := some e.id, originalQuantity := some e.quantity }
  let debitLine : LedgerLine :=
    { transactionId := mergerEvent.id, userId := e.userId,
      account := Account.USER_PORTFOLIO, entryType := EntryType.DEBIT,
      stockSymbol := some oldStockSymbol, quantity := some oldQuantity,
      inrAmount := none, status := "COMPLETED" }
  let creditLine : LedgerLine :=
    { transactionId := mergerEvent.id, userId := e.userId,
      account := Account.USER_PORTFOLIO, entryType := EntryType.CREDIT,
      stockSymbol := some newStockSymbol, quantity := some newQuantity,
      inrAmount := none, status := "COMPLETED" }
  { events := (s.events ++ [mergerEvent]).map (flipAdjusted "MERGER" e.id),
    entries := s.entries ++ [debitLine, creditLine],
    nextId := s.nextId + 1 }

/-- corporateActionService.js lines 54-114, `processMerger`.  The
`exchangeRate` argument is the `exchangeRatio` of the source. -/
def processMerger (oldStockSymbol newStockSymbol : String) (exchangeRate : ℚ)
    (effectiveDate now : Int) (s : St) : St :=
  (s.events.filter (activeBefore oldStockSymbol effectiveDate)).foldl
    (processMergerStep oldStockSymbol newStockSymbol exchangeRate
      effectiveDate now) s

/-- One iteration of the delisting loop (corporateActionService.js lines
123-151): flip the original to ADJUSTED, post the portfolio debit for the
shares and the company-cash credit for `quantity * finalPrice`, both under
the original event identifier.  No new RewardEvent is created. -/
def processDelistingStep (stockSymbol : String) (finalPrice : ℚ)
    (s : St) (e : RewardEvt) : St :=
  let quantity := e.quantity
  let totalValue := quantity * finalPrice
  let debitLine : LedgerLine :=
    { transactionId := e.id, userId := e.userId,
      account := Account.USER_PORTFOLIO, entryType := EntryType.DEBIT,
      stockSymbol := some stockSymbol, quantity := some quantity,
      inrAmount := none, status := "COMPLETED" }
  let cashLine : LedgerLine :=
    { transactionId := e.id, userId := e.userId,
      account := Account.COMPANY_CASH, entryType := EntryType.CREDIT,
      stockSymbol := none, quantity := none,
      inrAmount := some totalValue, status := "COMPLETED" }
  { events := s.events.map (flipAdjusted "DELISTING" e.id),
    entries := s.entries ++ [debitLine, cashLine],
    nextId := s.nextId }

/-- corporateActionService.js lines 116-157, `processDelisting`. -/
def processDelisting (stockSymbol : String) (finalPrice : ℚ)
    (effectiveDate : Int) (s : St) : St :=
  (s.events.filter (activeBefore stockSymbol effectiveDate)).foldl
    (processDelistingStep stockSymbol finalPrice) s

/-- priceService.js line 5: 5 minutes in milliseconds. -/
def CACHE_TTL : Int := 5 * 60 * 1000

/-- priceService.js lines 9-20 plus the `|| 1000` default of line 52. -/
def BASE_PRICES (symbol : String) : ℚ :=
  if symbol = "RELIANCE" then 2500
  else if symbol = "TCS" then 3500
  else if symbol = "INFOSYS" then 1500
  else if symbol = "HDFC" then 1600
  else if symbol = "ICICIBANK" then 900
  else if symbol = "BHARTIARTL" then 800
  else if symbol = "ITC" then 400
  else if symbol = "SBIN" then 500
  else if symbol = "KOTAKBANK" then 1800
  else if symbol = "LT" then 3000
  else 1000

/-- A StockPriceHistory document (stockPriceHistory.js): symbol, price and
the `fetchedAt` creation timestamp. -/
structure PriceQuoteRow where
  stockSymbol : String
  price : ℚ
  fetchedAt : Int
deriving DecidableEq

/-- The price-service state: the in-memory `priceCache` map (symbol to
price and cache timestamp; association list, newest binding first) and the
persisted StockPriceHistory collection. -/
structure PriceSt where
  priceCache : List (String × ℚ × Int)
  history : List PriceQuoteRow
deriving DecidableEq

/-- `priceCache.get(symbol)` (priceService.js line 33). -/
def cacheLookup (sym : String) (c : List (String × ℚ × Int)) :
    Option (ℚ × Int) :=
  (c.find? (fun p => decide (p.1 = sym))).map (fun p => p.2)

/-- `priceCache.set(symbol, { price, timestamp })` (priceService.js lines
62-65): the new binding replaces any previous one for the symbol. -/
def cacheSet (sym : String) (v : ℚ × Int) (c : List (String × ℚ × Int)) :
    List (String × ℚ × Int) :=
  (sym, v) :: c.filter (fun p => !(decide (p.1 = sym)))

/-- `StockPriceHistory.findOne({ stockSymbol }).sort({ fetchedAt: -1 })`
(priceService.js lines 40-42): the newest persisted quote for the symbol,
later rows winning ties. -/
def latestQuote (sym : String) (rows : List PriceQuoteRow) :
    Option PriceQuoteRow :=
  (rows.filter (fun r => decide (r.stockSymbol = sym))).foldl
    (fun acc r =>
      match acc with
      | none => some r
      | some b => if b.fetchedAt ≤ r.fetchedAt then some r else some b)
    none

/-- `parseFloat(price.toFixed(4))` (priceService.js line 59): round to four
decimal digits. -/
def round4 (x : ℚ) : ℚ := (round (x * 10000) : ℤ) / 10000

/-- The body of the try block on a cache miss (priceService.js lines
39-73): perturb the newest persisted quote by plus or minus 2 percent
(`rand` stands for the Math.random() draw in [0,1)) or, with no history,
the base price by plus or minus 5 percent; floor the result at 1, round to
4 decimals, write it to the cache and append it to the history. -/
def fetchAndStore (normalizedSymbol : String) (now : Int) (rand : ℚ)
    (s : PriceSt) : ℚ × PriceSt :=
  let price0 : ℚ :=
    match latestQuote normalizedSymbol s.history with
    | some lastPrice => lastPrice.price * (1 + (rand - 1 / 2) * (4 / 100))
    | none => BASE_PRICES normalizedSymbol * (1 + (rand - 1 / 2) * (1 / 10))
  let price := round4 (max price0 1)
  (price,
   { priceCache := cacheSet normalizedSymbol (price, now) s.priceCache,
     history := s.history ++ [⟨normalizedSymbol, price, now⟩] })

/-- priceService.js lines 29-85, `getLatestPrice`: serve a cache entry
younger than the TTL directly; otherwise try the fetch-and-store path
(`dbOk = false` models the database calls throwing), and on failure fall
back to the stale cache entry when one exists, else rethrow (`none`). -/
def getLatestPrice (stockSymbol : String) (now : Int) (rand : ℚ)
    (dbOk : Bool) (s : PriceSt) : Option (ℚ × PriceSt) :=
  let normalizedSymbol := normSym stockSymbol
  match cacheLookup normalizedSymbol s.priceCache with
  | some cached =>
      if now - cached.2 < CACHE_TTL then some (cached.1, s)
      else if dbOk then some (fetchAndStore normalizedSymbol now rand s)
      else some (cached.1, s)
  | none =>
      if dbOk then some (fetchAndStore normalizedSymbol now rand s)
      else none

/-- Invariant of the price cache: every cached price is at least 1 (every
write goes through the floor-at-1 and round of the fetch path). -/
def cacheWF (s : PriceSt) : Prop := ∀ p ∈ s.priceCache, 1 ≤ p.2.1

theorem foldl_signed_eq_sum (l : List LedgerLine) (a : ℚ) :
    l.foldl
      (fun acc e =>
        let amount : ℚ := match e.inrAmount with
          | some x => x
          | none => 0
        acc + (match e.entryType with
          | EntryType.DEBIT => amount
          | EntryType.CREDIT => -amount))
      a = a + (l.map signedAmount).sum := by
  induction l generalizing a with
  | nil => simp
  | cons e rest ih =>
      simp only [List.foldl_cons, List.map_cons, List.sum_cons, ih]
      cases h : e.inrAmount with
      | none => cases ht : e.entryType <;> simp [signedAmount, h, ht]
      | some x =>
          cases ht : e.entryType <;> simp [signedAmount, h, ht] <;> ring

theorem sum_signed_filter_monetary (l : List LedgerLine) (t : Nat) :
    ((l.filter (fun e => decide (e.transactionId = t))).map signedAmount).sum
      = monetarySignedSum l t := by
  unfold monetarySignedSum
  induction l with
  | nil => simp
  | cons e rest ih =>
      by_cases ht : e.transactionId = t
      · by_cases hm : e.inrAmount = none
        · have hz : signedAmount e = 0 := by simp [signedAmount, hm]
          simp [List.filter_cons, ht, hm, hz, ih]
        · simp [List.filter_cons, ht, hm, ih]
      · simp [List.filter_cons, ht, ih]

/-- Claim C7: `validateTransaction` returns true if and only if the signed
sum of the monetary (inrAmount-bearing) lines sharing the transaction
identifier — debit positive, credit negative — has absolute value below
0.0001, regardless of stock-quantity lines present in the transaction. -/
theorem validateTransaction_iff_monetary_balance
    (entries : List LedgerLine) (transactionId : Nat) :
    validateTransaction entries transactionId
      = decide (|monetarySignedSum entries transactionId| < 1 / 10000) := by
  unfold validateTransaction
  rw [foldl_signed_eq_sum, sum_signed_filter_monetary, zero_add]

theorem findOneByKey_none_of_no_key {k : String} {events : List RewardEvt}
    (h : ∀ x ∈ events, x.idempotencyKey ≠ some k) :
    findOneByKey k events = none := by
  unfold findOneByKey
  rw [List.find?_eq_none]
  intro x hx
  simpa using h x hx

/-- Full characterization of a successful submission: with valid input, a
key not yet committed and a positive fetched price, `createReward` commits
exactly the fresh RewardEvent and the five ledger lines and returns the
computed fee breakdown.  Shared backbone for the C6 and C8 theorems. -/
theorem createReward_success_shape
    (userId stockSymbol : String) (q p : ℚ) (k : String) (ts : Int) (s : St)
    (hu : userId ≠ "") (hs : stockSymbol ≠ "") (hq : 0 < q) (hp : 0 < p)
    (hkey : ∀ x ∈ s.events, x.idempotencyKey ≠ some k) :
    createReward userId stockSymbol (some q) (some k) ts (some p) s
      = (CRResult.created
          (freshRewardEvent userId stockSymbol q (some k) ts s.nextId)
          ⟨q * p, q * p * brokerageRate, q * p * sttRate,
           q * p * brokerageRate * gstRate,
           q * p * brokerageRate + q * p * sttRate
             + q * p * brokerageRate * gstRate⟩,
         { events := s.events
             ++ [freshRewardEvent userId stockSymbol q (some k) ts s.nextId],
           entries := s.entries
             ++ rewardLines userId (normSym stockSymbol) q (q * p)
                 (q * p * brokerageRate) (q * p * sttRate)
                 (q * p * brokerageRate * gstRate) s.nextId,
           nextId := s.nextId + 1 }) := by
  have hany : (s.events.any (fun x => decide (x.idempotencyKey = some k)))
      = false := by
    rw [List.any_eq_false]
    intro x hx
    simpa using hkey x hx
  simp only [createReward, createRewardCommit, rewardEventCreate,
    freshRewardEvent, findOneByKey_none_of_no_key hkey, hany,
    Bool.false_eq_true, if_false]
  rw [if_neg (by push_neg; exact ⟨hu, hs⟩), if_neg (not_le.mpr hq),
      if_neg (not_le.mpr hp)]

/-- Claim C3: when a RewardEvent with the submitted idempotency key is
already committed (the pre-check `findOne` returns it), a valid submission
returns that existing record with the already-recorded signal, leaves the
store completely unchanged, and does not fail — the price lookup result is
irrelevant. -/
theorem createReward_duplicate_returns_existing
    (userId stockSymbol : String) (q : ℚ) (k : String) (ts : Int)
    (priceResult : Option ℚ) (s : St) (e : RewardEvt)
    (hu : userId ≠ "") (hs : stockSymbol ≠ "") (hq : 0 < q)
    (hfind : findOneByKey k s.events = some e) :
    createReward userId stockSymbol (some q) (some k) ts priceResult s
      = (CRResult.alreadyRecorded e, s) := by
  simp only [createReward, hfind]
  rw [if_neg (by push_neg; exact ⟨hu, hs⟩), if_neg (not_le.mpr hq)]

/-- Witness for C3: a concrete store holding the key already. -/
theorem createReward_duplicate_returns_existing_witness :
    createReward "u1" "ACME" (some 2) (some "K1") 5 (some 100)
        ⟨[⟨0, "u1", "ACME", 1, 0, some "K1", RStatus.ACTIVE, none, none, none⟩],
          [], 1⟩
      = (CRResult.alreadyRecorded
          ⟨0, "u1", "ACME", 1, 0, some "K1", RStatus.ACTIVE, none, none, none⟩,
         ⟨[⟨0, "u1", "ACME", 1, 0, some "K1", RStatus.ACTIVE, none, none, none⟩],
           [], 1⟩) :=
  createReward_duplicate_returns_existing "u1" "ACME" 2 "K1" 5 (some 100) _ _
    (by decide) (by decide) (by norm_num) (by decide)

/-- Claim C1 (divergence witness): a valid submission whose price lookup
throws with no cached fallback is answered with the catch-all 500, yet the
RewardEvent committed before the lookup stays in the store — the store
state is not unchanged on this error. -/
theorem createReward_priceFailure_leaves_event :
    createReward "u1" "ACME" (some 1) (some "K1") 0 none ⟨[], [], 0⟩
      = (CRResult.serverError,
         ⟨[⟨0, "u1", "ACME", 1, 0, some "K1", RStatus.ACTIVE, none, none,
             none⟩], [], 1⟩) := by
  decide

/-- Claim C2 (divergence witness): two concurrent submissions of the same
idempotency key, interleaved so that both application level pre-checks run
before either insert.  Both pre-checks pass on the empty store; caller A
commits and gets the 201 result; caller B then runs its insert, the unique
index rejects it, and the catch-all turns it into a 500 — so exactly one
reward is committed but the two callers observe different results, and the
deduplication that callers normally see is the check-then-act pre-check,
not the uniqueness guarantee. -/
theorem idempotencyRace_divergent_results :
    (findOneByKey "K" (⟨[], [], 0⟩ : St).events = none)
    ∧ (∃ evt fees s₁,
        createReward "uA" "ACME" (some 1) (some "K") 0 (some 100) ⟨[], [], 0⟩
          = (CRResult.created evt fees, s₁)
        ∧ createRewardCommit "uB" "ACME" 1 (some "K") 0 (some 100) s₁
            = (CRResult.serverError, s₁)
        ∧ (s₁.events.filter
            (fun e => decide (e.idempotencyKey = some "K"))).length = 1
        ∧ CRResult.created evt fees ≠ CRResult.serverError) := by
  refine ⟨by decide, ?_⟩
  have hA := createReward_success_shape "uA" "ACME" 1 100 "K" 0 ⟨[], [], 0⟩
    (by decide) (by decide) (by norm_num) (by norm_num)
    (by intro x hx; simp at hx)
  refine ⟨_, _, _, hA, ?_, ?_, fun h => CRResult.noConfusion h⟩
  · simp [createRewardCommit, rewardEventCreate, freshRewardEvent]
  · simp [freshRewardEvent]

theorem filter_txn_of_fresh {s : List LedgerLine} {n : Nat}
    (htxn : ∀ x ∈ s, x.transactionId ≠ n)
    (uid sym : String) (q iv b st g : ℚ) :
    (s ++ rewardLines uid sym q iv b st g n).filter
        (fun x => decide (x.transactionId = n))
      = rewardLines uid sym q iv b st g n := by
  rw [List.filter_append]
  have h1 : s.filter (fun x => decide (x.transactionId = n)) = [] := by
    rw [List.filter_eq_nil_iff]
    intro x hx
    simpa using htxn x hx
  rw [h1, List.nil_append]
  simp [rewardLines]

/-- Claim C6: a successful submission returns the breakdown
inrValue = q*p, brokerage = inrValue*brokerageRate, stt = inrValue*sttRate,
gst = brokerage*gstRate, totalFees their sum, and the transaction posted
under the new RewardEvent identifier consists exactly of the five lines of
`rewardLines`: the company-cash debit for inrValue, one debit per fee, and
the USER_PORTFOLIO credit for the stock quantity. -/
theorem createReward_breakdown_and_lines
    (userId stockSymbol : String) (q p : ℚ) (k : String) (ts : Int) (s : St)
    (hu : userId ≠ "") (hs : stockSymbol ≠ "") (hq : 0 < q) (hp : 0 < p)
    (hkey : ∀ x ∈ s.events, x.idempotencyKey ≠ some k)
    (htxn : ∀ x ∈ s.entries, x.transactionId ≠ s.nextId) :
    ∃ evt fees s',
      createReward userId stockSymbol (some q) (some k) ts (some p) s
        = (CRResult.created evt fees, s')
      ∧ fees.inrValue = q * p
      ∧ fees.brokerage = fees.inrValue * brokerageRate
      ∧ fees.stt = fees.inrValue * sttRate
      ∧ fees.gst = fees.brokerage * gstRate
      ∧ fees.totalFees = fees.brokerage + fees.stt + fees.gst
      ∧ evt.quantity = q ∧ evt.status = RStatus.ACTIVE
      ∧ s'.events = s.events ++ [evt]
      ∧ s'.entries.filter (fun x => decide (x.transactionId = evt.id))
          = rewardLines userId (normSym stockSymbol) q fees.inrValue
              fees.brokerage fees.stt fees.gst evt.id := by
  refine ⟨freshRewardEvent userId stockSymbol q (some k) ts s.nextId,
    ⟨q * p, q * p * brokerageRate, q * p * sttRate,
      q * p * brokerageRate * gstRate,
      q * p * brokerageRate + q * p * sttRate
        + q * p * brokerageRate * gstRate⟩, _,
    createReward_success_shape userId stockSymbol q p k ts s hu hs hq hp hkey,
    rfl, rfl, rfl, ?_, rfl, rfl, rfl, rfl, ?_⟩
  · show q * p * brokerageRate * gstRate = q * p * brokerageRate * gstRate
    rfl
  · exact filter_txn_of_fresh htxn userId (normSym stockSymbol) q (q * p)
      (q * p * brokerageRate) (q * p * sttRate)
      (q * p * brokerageRate * gstRate)

/-- Witness for C6 at a concrete submission: 2 shares at price 100. -/
theorem createReward_breakdown_and_lines_witness :
    ∃ evt fees s',
      createReward "u1" "ACME" (some 2) (some "K1") 0 (some 100) ⟨[], [], 0⟩
        = (CRResult.created evt fees, s')
      ∧ fees.inrValue = 2 * 100
      ∧ fees.brokerage = fees.inrValue * brokerageRate
      ∧ fees.stt = fees.inrValue * sttRate
      ∧ fees.gst = fees.brokerage * gstRate
      ∧ fees.totalFees = fees.brokerage + fees.stt + fees.gst
      ∧ evt.quantity = 2 ∧ evt.status = RStatus.ACTIVE
      ∧ s'.events = [] ++ [evt]
      ∧ s'.entries.filter (fun x => decide (x.transactionId = evt.id))
          = rewardLines "u1" (normSym "ACME") 2 fees.inrValue
              fees.brokerage fees.stt fees.gst evt.id := by
  have h := createReward_breakdown_and_lines "u1" "ACME" 2 100 "K1" 0
    ⟨[], [], 0⟩ (by decide) (by decide) (by norm_num) (by norm_num)
    (by intro x hx; simp at hx) (by intro x hx; simp at hx)
  exact h

/-- Counterexample to C8 as stated: a committed reward with positive shares
(0.00001) and positive price (1) whose all-debit balance 0.0000100143 still
falls inside the 0.0001 tolerance, so `validateTransaction` returns true
for its transaction. -/
theorem tiny_reward_passes_validation :
    ∃ evt fees,
      (createReward "u1" "ACME" (some (1 / 100000)) (some "K1") 0 (some 1)
          ⟨[], [], 0⟩).1
        = CRResult.created evt fees
      ∧ validateTransaction
          ((createReward "u1" "ACME" (some (1 / 100000)) (some "K1") 0
              (some 1) ⟨[], [], 0⟩).2).entries
          evt.id = true := by
  have h := createReward_success_shape "u1" "ACME" (1 / 100000) 1 "K1" 0
    ⟨[], [], 0⟩ (by decide) (by decide) (by norm_num) (by norm_num)
    (by intro x hx; simp at hx)
  refine ⟨_, _, by rw [h], ?_⟩
  rw [h]
  simp [validateTransaction, rewardLines, freshRewardEvent,
    brokerageRate, sttRate, gstRate]
  rw [abs_of_nonneg (by norm_num)]
  norm_num

/-- Claim C8 as amended: all monetary lines of a committed reward
transaction are DEBIT entries with no balancing credit, and whenever the
INR value q*p reaches the 0.0001 tolerance (any realistic reward),
`validateTransaction` on that transaction returns false; only when the all
debit balance q*p*1.00143 itself stays below the tolerance does the check
degenerate to true. -/
theorem reward_transaction_all_debits_fails_validation
    (userId stockSymbol : String) (q p : ℚ) (k : String) (ts : Int) (s : St)
    (hu : userId ≠ "") (hs : stockSymbol ≠ "") (hq : 0 < q) (hp : 0 < p)
    (hkey : ∀ x ∈ s.events, x.idempotencyKey ≠ some k)
    (htxn : ∀ x ∈ s.entries, x.transactionId ≠ s.nextId)
    (hqp : 1 / 10000 ≤ q * p) :
    ∃ evt fees s',
      createReward userId stockSymbol (some q) (some k) ts (some p) s
        = (CRResult.created evt fees, s')
      ∧ (∀ x ∈ s'.entries.filter (fun x => decide (x.transactionId = evt.id)),
          x.inrAmount ≠ none → x.entryType = EntryType.DEBIT)
      ∧ validateTransaction s'.entries evt.id = false := by
  refine ⟨freshRewardEvent userId stockSymbol q (some k) ts s.nextId,
    ⟨q * p, q * p * brokerageRate, q * p * sttRate,
      q * p * brokerageRate * gstRate,
      q * p * brokerageRate + q * p * sttRate
        + q * p * brokerageRate * gstRate⟩, _,
    createReward_success_shape userId stockSymbol q p k ts s hu hs hq hp hkey,
    ?_, ?_⟩
  · intro x hx
    simp only [freshRewardEvent] at hx
    rw [filter_txn_of_fresh htxn] at hx
    simp only [rewardLines, List.mem_cons, List.not_mem_nil, or_false] at hx
    rcases hx with h | h | h | h | h <;> subst h <;> simp
  · simp only [freshRewardEvent]
    unfold validateTransaction
    rw [filter_txn_of_fresh htxn, foldl_signed_eq_sum]
    rw [decide_eq_false_iff_not]
    intro habs
    have hsum : ((rewardLines userId (normSym stockSymbol) q (q * p)
        (q * p * brokerageRate) (q * p * sttRate)
        (q * p * brokerageRate * gstRate) s.nextId).map signedAmount).sum
        = q * p * (100143 / 100000) := by
      simp [rewardLines, signedAmount, brokerageRate, sttRate, gstRate]
      ring
    rw [hsum, zero_add, abs_of_nonneg (by positivity)] at habs
    have hmul : (1 / 10000 : ℚ) * (100143 / 100000)
        ≤ q * p * (100143 / 100000) :=
      mul_le_mul_of_nonneg_right hqp (by norm_num)
    have : (1 / 10000 : ℚ) < 1 / 10000 := by
      calc (1 / 10000 : ℚ) < 1 / 10000 * (100143 / 100000) := by norm_num
        _ ≤ q * p * (100143 / 100000) := hmul
        _ < 1 / 10000 := habs
    exact absurd this (lt_irrefl _)

/-- Witness for the amended C8 theorem: 1 share at price 100. -/
theorem reward_transaction_all_debits_fails_validation_witness :
    ∃ evt fees s',
      createReward "u1" "ACME" (some 1) (some "K1") 0 (some 100) ⟨[], [], 0⟩
        = (CRResult.created evt fees, s')
      ∧ (∀ x ∈ s'.entries.filter (fun x => decide (x.transactionId = evt.id)),
          x.inrAmount ≠ none → x.entryType = EntryType.DEBIT)
      ∧ validateTransaction s'.entries evt.id = false := by
  have h := reward_transaction_all_debits_fails_validation "u1" "ACME" 1 100
    "K1" 0 ⟨[], [], 0⟩ (by decide) (by decide) (by norm_num) (by norm_num)
    (by intro x hx; simp at hx) (by intro x hx; simp at hx) (by norm_num)
  exact h

theorem activeBefore_false_of_adjusted (sym : String) (eff : Int)
    {x : RewardEvt} (hx : x.status = RStatus.ADJUSTED) :
    activeBefore sym eff x = false := by
  simp [activeBefore, hx]

/-- Every event present after one handler iteration is either ADJUSTED or
was already present and untouched (a different id than the processed
original).  Holds for all three handler steps. -/
theorem step_events_shape (t : St) (e : RewardEvt) (x : RewardEvt)
    (sym newSym : String) (rf rt xr fp : ℚ) (eff now : Int) :
    ((x ∈ (processStockSplitStep sym rf rt eff now t e).events
        ∨ x ∈ (processMergerStep sym newSym xr eff now t e).events)
      ∨ x ∈ (processDelistingStep sym fp t e).events) →
    x.status = RStatus.ADJUSTED ∨ (x ∈ t.events ∧ x.id ≠ e.id) := by
  intro hx
  have hflip : ∀ (r : String) (y : RewardEvt),
      flipAdjusted r e.id y = x →
      (y.id = e.id → x.status = RStatus.ADJUSTED)
        ∧ (y.id ≠ e.id → x = y) := by
    intro r y hy
    constructor
    · intro hid
      rw [← hy]
      simp [flipAdjusted, hid]
    · intro hid
      rw [← hy]
      simp [flipAdjusted, hid]
  rcases hx with (hx | hx) | hx
  · simp only [processStockSplitStep, List.map_append, List.mem_append,
      List.mem_map, List.map_cons, List.map_nil, List.mem_cons,
      List.not_mem_nil, or_false] at hx
    rcases hx with ⟨y, hy, hyx⟩ | hx
    · by_cases hid : y.id = e.id
      · exact Or.inl ((hflip _ y hyx).1 hid)
      · exact Or.inr ⟨by rw [(hflip _ y hyx).2 hid]; exact hy,
          by rw [(hflip _ y hyx).2 hid]; exact hid⟩
    · left
      rw [hx]
      by_cases hid : t.nextId = e.id <;> simp [flipAdjusted, splitAdjEvt, hid]
  · simp only [processMergerStep, List.map_append, List.mem_append,
      List.mem_map, List.map_cons, List.map_nil, List.mem_cons,
      List.not_mem_nil, or_false] at hx
    rcases hx with ⟨y, hy, hyx⟩ | hx
    · by_cases hid : y.id = e.id
      · exact Or.inl ((hflip _ y hyx).1 hid)
      · exact Or.inr ⟨by rw [(hflip _ y hyx).2 hid]; exact hy,
          by rw [(hflip _ y hyx).2 hid]; exact hid⟩
    · left
      rw [hx]
      by_cases hid : t.nextId = e.id <;> simp [flipAdjusted, hid]
  · simp only [processDelistingStep, List.mem_map] at hx
    rcases hx with ⟨y, hy, hyx⟩
    by_cases hid : y.id = e.id
    · exact Or.inl ((hflip _ y hyx).1 hid)
    · exact Or.inr ⟨by rw [(hflip _ y hyx).2 hid]; exact hy,
        by rw [(hflip _ y hyx).2 hid]; exact hid⟩

/-- Fold invariant: if every still-ACTIVE-matching event of the current
store is scheduled in the remaining work list, then after the fold no
event matches the handler selection any more. -/
theorem foldl_no_active_left (P : RewardEvt → Bool)
    (hP : ∀ x : RewardEvt, x.status = RStatus.ADJUSTED → P x = false)
    (step : St → RewardEvt → St)
    (hstep : ∀ (t : St) (e x : RewardEvt), x ∈ (step t e).events →
      x.status = RStatus.ADJUSTED ∨ (x ∈ t.events ∧ x.id ≠ e.id)) :
    ∀ (l : List RewardEvt) (t : St),
      (∀ x ∈ t.events, P x = true → x.id ∈ l.map (fun y => y.id)) →
      ∀ x ∈ (l.foldl step t).events, P x = false := by
  intro l
  induction l with
  | nil =>
      intro t h x hx
      cases hPx : P x with
      | false => rfl
      | true => exact absurd (h x hx hPx) (by simp)
  | cons e rest ih =>
      intro t h x hx
      rw [List.foldl_cons] at hx
      refine ih (step t e) ?_ x hx
      intro y hy hPy
      rcases hstep t e y hy with hadj | ⟨hyt, hyne⟩
      · exact absurd hPy (by rw [hP y hadj]; simp)
      · have hmem := h y hyt hPy
        simp only [List.map_cons, List.mem_cons] at hmem
        rcases hmem with h1 | h2
        · exact absurd h1 hyne
        · exact h2

theorem split_no_active_after (sym : String) (rf rt : ℚ) (eff now : Int)
    (s : St) :
    ∀ x ∈ (processStockSplit sym rf rt eff now s).events,
      activeBefore sym eff x = false := by
  refine foldl_no_active_left (activeBefore sym eff)
    (fun x hx => activeBefore_false_of_adjusted sym eff hx)
    _ (fun t e x hx => step_events_shape t e x sym sym rf rt 0 0 eff now
        (Or.inl (Or.inl hx)))
    _ s (fun x hx hPx => ?_)
  exact List.mem_map.mpr ⟨x, List.mem_filter.mpr ⟨hx, hPx⟩, rfl⟩

theorem merger_no_active_after (oldSym newSym : String) (xr : ℚ)
    (eff now : Int) (s : St) :
    ∀ x ∈ (processMerger oldSym newSym xr eff now s).events,
      activeBefore oldSym eff x = false := by
  refine foldl_no_active_left (activeBefore oldSym eff)
    (fun x hx => activeBefore_false_of_adjusted oldSym eff hx)
    _ (fun t e x hx => step_events_shape t e x oldSym newSym 0 0 xr 0 eff now
        (Or.inl (Or.inr hx)))
    _ s (fun x hx hPx => ?_)
  exact List.mem_map.mpr ⟨x, List.mem_filter.mpr ⟨hx, hPx⟩, rfl⟩

theorem delisting_no_active_after (sym : String) (fp : ℚ) (eff : Int)
    (s : St) :
    ∀ x ∈ (processDelisting sym fp eff s).events,
      activeBefore sym eff x = false := by
  refine foldl_no_active_left (activeBefore sym eff)
    (fun x hx => activeBefore_false_of_adjusted sym eff hx)
    _ (fun t e x hx => step_events_shape t e x sym sym 0 0 0 fp eff 0
        (Or.inr hx))
    _ s (fun x hx hPx => ?_)
  exact List.mem_map.mpr ⟨x, List.mem_filter.mpr ⟨hx, hPx⟩, rfl⟩

/-- Claim C10: immediately re-invoking a corporate-action handler with the
same arguments after a completed invocation is a no-op on the store: the
first run flips every selected original to ADJUSTED and only creates
ADJUSTED delta events, so the second run selects nothing and creates no
additional RewardEvent and no additional LedgerEntry. -/
theorem corporateActions_second_run_noop
    (sym newSym : String) (ratioFrom ratioTo exchangeRate finalPrice : ℚ)
    (eff now₁ now₂ : Int) (s : St) :
    processStockSplit sym ratioFrom ratioTo eff now₂
        (processStockSplit sym ratioFrom ratioTo eff now₁ s)
      = processStockSplit sym ratioFrom ratioTo eff now₁ s
    ∧ processMerger sym newSym exchangeRate eff now₂
        (processMerger sym newSym exchangeRate eff now₁ s)
      = processMerger sym newSym exchangeRate eff now₁ s
    ∧ processDelisting sym finalPrice eff
        (processDelisting sym finalPrice eff s)
      = processDelisting sym finalPrice eff s := by
  refine ⟨?_, ?_, ?_⟩
  · conv_lhs => rw [processStockSplit]
    rw [List.filter_eq_nil_iff.mpr (fun x hx => by
      rw [split_no_active_after sym ratioFrom ratioTo eff now₁ s x hx]
      simp)]
    rfl
  · conv_lhs => rw [processMerger]
    rw [List.filter_eq_nil_iff.mpr (fun x hx => by
      rw [merger_no_active_after sym newSym exchangeRate eff now₁ s x hx]
      simp)]
    rfl
  · conv_lhs => rw [processDelisting]
    rw [List.filter_eq_nil_iff.mpr (fun x hx => by
      rw [delisting_no_active_after sym finalPrice eff s x hx]
      simp)]
    rfl

/-- Claim C4 (divergence witness): the idempotency key of a split
adjustment embeds Date.now(), so it is not a function of the action and the
original event alone — two runs of the same handler over the same original
event at different wall-clock instants produce different keys. -/
theorem splitKey_wallclock_dependent :
    ((processStockSplit "ACME" 1 2 10 100
        ⟨[⟨0, "u1", "ACME", 2, 0, some "K0", RStatus.ACTIVE, none, none,
            none⟩], [], 1⟩).events.filter
        (fun x => decide (x.parentRewardId = some 0))).map
        (fun x => x.idempotencyKey)
      = [some "SPLIT_0_100"]
    ∧ ((processStockSplit "ACME" 1 2 10 200
        ⟨[⟨0, "u1", "ACME", 2, 0, some "K0", RStatus.ACTIVE, none, none,
            none⟩], [], 1⟩).events.filter
        (fun x => decide (x.parentRewardId = some 0))).map
        (fun x => x.idempotencyKey)
      = [some "SPLIT_0_200"]
    ∧ ("SPLIT_0_100" : String) ≠ "SPLIT_0_200" := by
  refine ⟨?_, ?_, by decide⟩
  · have h : splitKey 0 100 = "SPLIT_0_100" := by decide
    simp [processStockSplit, processStockSplitStep, splitAdjEvt, splitEntry,
      activeBefore, flipAdjusted, h]
  · have h : splitKey 0 200 = "SPLIT_0_200" := by decide
    simp [processStockSplit, processStockSplitStep, splitAdjEvt, splitEntry,
      activeBefore, flipAdjusted, h]

theorem flipAll_nil (r : String) (e : RewardEvt) : flipAll r [] e = e := by
  simp [flipAll]

theorem flipAll_flip (r : String) (tid : Nat) (ids : List Nat)
    (e : RewardEvt) :
    flipAll r ids (flipAdjusted r tid e) = flipAll r (tid :: ids) e := by
  by_cases h1 : e.id = tid
  · by_cases h2 : e.id ∈ ids <;>
      simp [flipAdjusted, flipAll, adjustedOriginal, h1, h2]
  · by_cases h2 : e.id ∈ ids <;>
      simp [flipAdjusted, flipAll, adjustedOriginal, h1, h2]

theorem flipAll_id_eq (r : String) (ids : List Nat) (x : RewardEvt) :
    (flipAll r ids x).id = x.id := by
  by_cases h : x.id ∈ ids <;> simp [flipAll, adjustedOriginal, h]

theorem flipAll_parent_eq (r : String) (ids : List Nat) (x : RewardEvt) :
    (flipAll r ids x).parentRewardId = x.parentRewardId := by
  by_cases h : x.id ∈ ids <;> simp [flipAll, adjustedOriginal, h]

theorem filter_map_comm (f : RewardEvt → RewardEvt) (p : RewardEvt → Bool)
    (hfp : ∀ x, p (f x) = p x) (l : List RewardEvt) :
    (l.map f).filter p = (l.filter p).map f := by
  induction l with
  | nil => simp
  | cons a rest ih =>
      simp only [List.map_cons, List.filter_cons, hfp]
      cases hpa : p a <;> simp [ih]

theorem filter_id_singleton :
    ∀ (l : List RewardEvt) (e : RewardEvt), e ∈ l →
      (l.map (fun x => x.id)).Nodup →
      l.filter (fun x => decide (x.id = e.id)) = [e] := by
  intro l
  induction l with
  | nil => intro e he _; simp at he
  | cons a rest ih =>
      intro e he hnd
      simp only [List.map_cons, List.nodup_cons] at hnd
      obtain ⟨hna, hndr⟩ := hnd
      rcases List.mem_cons.mp he with rfl | her
      · rw [List.filter_cons, if_pos (by simp)]
        congr 1
        rw [List.filter_eq_nil_iff]
        intro x hx
        simp only [decide_eq_true_eq]
        intro hxe
        exact hna (List.mem_map.mpr ⟨x, hx, hxe⟩)
      · have hane : ¬(a.id = e.id) := fun hcon =>
          hna (hcon ▸ List.mem_map.mpr ⟨e, her, rfl⟩)
        simp only [List.filter_cons, decide_eq_true_eq, if_neg hane]
        exact ih e her hndr

theorem split_foldl_events (sym : String) (rf rt : ℚ) (eff now : Int) :
    ∀ (l : List RewardEvt) (s : St), (∀ x ∈ l, x.id < s.nextId) →
      (l.foldl (processStockSplitStep sym rf rt eff now) s).events
        = s.events.map (flipAll "STOCK_SPLIT" (l.map (fun x => x.id)))
            ++ splitAdjList sym rf rt eff now s.nextId l := by
  intro l
  induction l with
  | nil =>
      intro s _
      simp only [List.foldl_nil, List.map_nil, splitAdjList,
        List.append_nil]
      calc s.events = s.events.map id := (List.map_id _).symm
        _ = s.events.map (flipAll "STOCK_SPLIT" []) :=
            List.map_congr_left (fun x _ => (flipAll_nil _ x).symm)
  | cons e rest ih =>
      intro s hl
      have hme : e.id < s.nextId := hl e (List.mem_cons_self e rest)
      rw [List.foldl_cons,
          ih (processStockSplitStep sym rf rt eff now s e)
            (fun x hx =>
              lt_trans (hl x (List.mem_cons_of_mem e hx))
                (Nat.lt_succ_self _))]
      simp only [processStockSplitStep, List.map_append, List.map_map,
        List.map_cons, List.map_nil, splitAdjList]
      rw [List.append_assoc, List.singleton_append]
      have hA : s.events.map
            (flipAll "STOCK_SPLIT" (rest.map (fun y => y.id))
              ∘ flipAdjusted "STOCK_SPLIT" e.id)
          = s.events.map
              (flipAll "STOCK_SPLIT" (e.id :: rest.map (fun y => y.id))) :=
        List.map_congr_left (fun x _ => flipAll_flip "STOCK_SPLIT" e.id _ x)
      have h1 : flipAdjusted "STOCK_SPLIT" e.id
            (splitAdjEvt sym rf rt eff now s.nextId e)
          = splitAdjEvt sym rf rt eff now s.nextId e := by
        have : ¬(s.nextId = e.id) := fun hcon => absurd (hcon ▸ hme)
          (lt_irrefl _)
        simp [flipAdjusted, splitAdjEvt, this]
      have h2 : s.nextId ∉ rest.map (fun y => y.id) := by
        intro hmem
        obtain ⟨x, hx, hxid⟩ := List.mem_map.mp hmem
        exact absurd (hxid ▸ hl x (List.mem_cons_of_mem _ hx))
          (lt_irrefl _)
      have hb : flipAll "STOCK_SPLIT" (rest.map (fun y => y.id))
            (flipAdjusted "STOCK_SPLIT" e.id
              (splitAdjEvt sym rf rt eff now s.nextId e))
          = splitAdjEvt sym rf rt eff now s.nextId e := by
        rw [h1]
        simp [flipAll, splitAdjEvt, h2]
      rw [hA, hb]

theorem split_foldl_entries (sym : String) (rf rt : ℚ) (eff now : Int) :
    ∀ (l : List RewardEvt) (s : St),
      (l.foldl (processStockSplitStep sym rf rt eff now) s).entries
        = s.entries ++ splitEntryList sym rf rt s.nextId l := by
  intro l
  induction l with
  | nil => intro s; simp [splitEntryList]
  | cons e rest ih =>
      intro s
      rw [List.foldl_cons, ih]
      simp only [processStockSplitStep, splitEntryList]
      rw [List.append_assoc, List.singleton_append]

theorem splitAdjList_mem (sym : String) (rf rt : ℚ) (eff now : Int) :
    ∀ (l : List RewardEvt) (n : Nat) (y : RewardEvt),
      y ∈ splitAdjList sym rf rt eff now n l →
      (∃ x ∈ l, y.parentRewardId = some x.id) ∧ n ≤ y.id := by
  intro l
  induction l with
  | nil => intro n y hy; simp [splitAdjList] at hy
  | cons a rest ih =>
      intro n y hy
      simp only [splitAdjList, List.mem_cons] at hy
      rcases hy with rfl | hy
      · exact ⟨⟨a, List.mem_cons_self a rest, rfl⟩, le_refl n⟩
      · obtain ⟨⟨x, hx, hpx⟩, hn⟩ := ih (n + 1) y hy
        exact ⟨⟨x, List.mem_cons_of_mem a hx, hpx⟩,
          le_trans (Nat.le_succ n) hn⟩

theorem splitEntryList_mem (sym : String) (rf rt : ℚ) :
    ∀ (l : List RewardEvt) (n : Nat) (y : LedgerLine),
      y ∈ splitEntryList sym rf rt n l → n ≤ y.transactionId := by
  intro l
  induction l with
  | nil => intro n y hy; simp [splitEntryList] at hy
  | cons a rest ih =>
      intro n y hy
      simp only [splitEntryList, List.mem_cons] at hy
      rcases hy with rfl | hy
      · exact le_refl n
      · exact le_trans (Nat.le_succ n) (ih (n + 1) y hy)

theorem splitLists_pick (sym : String) (rf rt : ℚ) (eff now : Int) :
    ∀ (l : List RewardEvt) (n : Nat) (e : RewardEvt), e ∈ l →
      (l.map (fun x => x.id)).Nodup →
      ∃ m, n ≤ m
        ∧ (splitAdjList sym rf rt eff now n l).filter
            (fun x => decide (x.parentRewardId = some e.id))
            = [splitAdjEvt sym rf rt eff now m e]
        ∧ (splitEntryList sym rf rt n l).filter
            (fun x => decide (x.transactionId = m))
            = [splitEntry sym rf rt m e] := by
  intro l
  induction l with
  | nil => intro n e he _; simp at he
  | cons a rest ih =>
      intro n e he hnd
      simp only [List.map_cons, List.nodup_cons] at hnd
      obtain ⟨hna, hndr⟩ := hnd
      rcases List.mem_cons.mp he with rfl | her
      · refine ⟨n, le_refl n, ?_, ?_⟩
        · simp only [splitAdjList, List.filter_cons]
          rw [if_pos (by simp [splitAdjEvt])]
          congr 1
          rw [List.filter_eq_nil_iff]
          intro y hy
          obtain ⟨⟨x, hx, hpx⟩, _⟩ := splitAdjList_mem sym rf rt eff now
            rest (n + 1) y hy
          simp only [decide_eq_true_eq, hpx, Option.some.injEq]
          intro hcon
          exact hna (hcon ▸ List.mem_map.mpr ⟨x, hx, rfl⟩)
        · simp only [splitEntryList, List.filter_cons]
          rw [if_pos (by simp [splitEntry])]
          congr 1
          rw [List.filter_eq_nil_iff]
          intro y hy
          have := splitEntryList_mem sym rf rt rest (n + 1) y hy
          simp only [decide_eq_true_eq]
          omega
      · obtain ⟨m, hm, hfa, hfe⟩ := ih (n + 1) e her hndr
        have hane : ¬(a.id = e.id) := fun hcon =>
          hna (hcon ▸ List.mem_map.mpr ⟨e, her, rfl⟩)
        refine ⟨m, le_trans (Nat.le_succ n) hm, ?_, ?_⟩
        · simp only [splitAdjList, List.filter_cons]
          rw [if_neg (by simp [splitAdjEvt, hane])]
          exact hfa
        · simp only [splitEntryList, List.filter_cons]
          rw [if_neg (by simp [splitEntry]; omega)]
          exact hfe

/-- Claim C5: for an ACTIVE RewardEvent of the split symbol timestamped
before the effective date, `processStockSplit` commits exactly one new
ADJUSTED RewardEvent holding the delta q*(to/from) - q with a parent link
to the original, flips the original to ADJUSTED with its quantity
unchanged, and posts exactly one USER_PORTFOLIO credit line for the delta
under the adjustment event identifier. -/
theorem processStockSplit_adjusts_active_events
    (sym : String) (ratioFrom ratioTo : ℚ) (eff now : Int) (s : St)
    (e : RewardEvt)
    (he : e ∈ s.events) (hsym : e.stockSymbol = sym)
    (hst : e.status = RStatus.ACTIVE) (hts : e.timestamp < eff)
    (hids : (s.events.map (fun x => x.id)).Nodup)
    (hfresh : ∀ x ∈ s.events, x.id < s.nextId)
    (hpar : ∀ x ∈ s.events, x.parentRewardId ≠ some e.id)
    (htxn : ∀ x ∈ s.entries, x.transactionId < s.nextId) :
    ∃ m, s.nextId ≤ m
      ∧ (processStockSplit sym ratioFrom ratioTo eff now s).events.filter
          (fun x => decide (x.parentRewardId = some e.id))
          = [splitAdjEvt sym ratioFrom ratioTo eff now m e]
      ∧ (splitAdjEvt sym ratioFrom ratioTo eff now m e).status
          = RStatus.ADJUSTED
      ∧ (splitAdjEvt sym ratioFrom ratioTo eff now m e).quantity
          = e.quantity * (ratioTo / ratioFrom) - e.quantity
      ∧ (splitAdjEvt sym ratioFrom ratioTo eff now m e).parentRewardId
          = some e.id
      ∧ (processStockSplit sym ratioFrom ratioTo eff now s).events.filter
          (fun x => decide (x.id = e.id))
          = [adjustedOriginal "STOCK_SPLIT" e]
      ∧ (adjustedOriginal "STOCK_SPLIT" e).quantity = e.quantity
      ∧ (adjustedOriginal "STOCK_SPLIT" e).status = RStatus.ADJUSTED
      ∧ (processStockSplit sym ratioFrom ratioTo eff now s).entries.filter
          (fun x => decide (x.transactionId = m))
          = [splitEntry sym ratioFrom ratioTo m e]
      ∧ (splitEntry sym ratioFrom ratioTo m e).account
          = Account.USER_PORTFOLIO
      ∧ (splitEntry sym ratioFrom ratioTo m e).entryType = EntryType.CREDIT
      ∧ (splitEntry sym ratioFrom ratioTo m e).quantity
          = some (e.quantity * (ratioTo / ratioFrom) - e.quantity) := by
  have hPe : activeBefore sym eff e = true := by
    simp [activeBefore, hsym, hst, hts]
  have hsel : e ∈ s.events.filter (activeBefore sym eff) :=
    List.mem_filter.mpr ⟨he, hPe⟩
  have hsub : List.Sublist
      ((s.events.filter (activeBefore sym eff)).map (fun x => x.id))
      (s.events.map (fun x => x.id)) :=
    (List.filter_sublist _).map _
  have hselnd : ((s.events.filter (activeBefore sym eff)).map
      (fun x => x.id)).Nodup := hids.sublist hsub
  have hsellt : ∀ x ∈ s.events.filter (activeBefore sym eff),
      x.id < s.nextId :=
    fun x hx => hfresh x (List.mem_of_mem_filter hx)
  obtain ⟨m, hm, hfa, hfe⟩ := splitLists_pick sym ratioFrom ratioTo eff now
    (s.events.filter (activeBefore sym eff)) s.nextId e hsel hselnd
  have hev : (processStockSplit sym ratioFrom ratioTo eff now s).events
      = s.events.map (flipAll "STOCK_SPLIT"
          ((s.events.filter (activeBefore sym eff)).map (fun x => x.id)))
        ++ splitAdjList sym ratioFrom ratioTo eff now s.nextId
            (s.events.filter (activeBefore sym eff)) :=
    split_foldl_events sym ratioFrom ratioTo eff now _ s hsellt
  have hen : (processStockSplit sym ratioFrom ratioTo eff now s).entries
      = s.entries ++ splitEntryList sym ratioFrom ratioTo s.nextId
          (s.events.filter (activeBefore sym eff)) :=
    split_foldl_entries sym ratioFrom ratioTo eff now _ s
  refine ⟨m, hm, ?_, rfl, rfl, rfl, ?_, rfl, rfl, ?_, rfl, rfl, rfl⟩
  · rw [hev, List.filter_append]
    have hmap : (s.events.map (flipAll "STOCK_SPLIT"
        ((s.events.filter (activeBefore sym eff)).map
          (fun x => x.id)))).filter
        (fun x => decide (x.parentRewardId = some e.id)) = [] := by
      rw [filter_map_comm _ _
        (fun x => by rw [flipAll_parent_eq])]
      have hnilp : s.events.filter
          (fun x => decide (x.parentRewardId = some e.id)) = [] :=
        List.filter_eq_nil_iff.mpr (fun x hx => by simpa using hpar x hx)
      rw [hnilp, List.map_nil]
    rw [hmap, hfa, List.nil_append]
  · rw [hev, List.filter_append]
    have hmap : (s.events.map (flipAll "STOCK_SPLIT"
        ((s.events.filter (activeBefore sym eff)).map
          (fun x => x.id)))).filter
        (fun x => decide (x.id = e.id))
        = [adjustedOriginal "STOCK_SPLIT" e] := by
      rw [filter_map_comm _ _ (fun x => by rw [flipAll_id_eq]),
          filter_id_singleton s.events e he hids, List.map_cons,
          List.map_nil]
      have hein : e.id ∈ (s.events.filter (activeBefore sym eff)).map
          (fun x => x.id) := List.mem_map.mpr ⟨e, hsel, rfl⟩
      rw [show flipAll "STOCK_SPLIT"
          ((s.events.filter (activeBefore sym eff)).map (fun x => x.id)) e
          = adjustedOriginal "STOCK_SPLIT" e by
        simp [flipAll, hein]]
    have hadj : (splitAdjList sym ratioFrom ratioTo eff now s.nextId
        (s.events.filter (activeBefore sym eff))).filter
        (fun x => decide (x.id = e.id)) = [] := by
      rw [List.filter_eq_nil_iff]
      intro y hy
      obtain ⟨_, hn⟩ := splitAdjList_mem sym ratioFrom ratioTo eff now
        _ s.nextId y hy
      have := hfresh e he
      simp only [decide_eq_true_eq]
      omega
    rw [hmap, hadj, List.append_nil]
  · rw [hen, List.filter_append]
    have hold : (s.entries.filter
        (fun x => decide (x.transactionId = m))) = [] := by
      rw [List.filter_eq_nil_iff]
      intro x hx
      have := htxn x hx
      simp only [decide_eq_true_eq]
      omega
    rw [hold, hfe, List.nil_append]

/-- Witness for C5: a 1:2 split of a single 2.0-share holding.  The delta
event holds exactly 2.0 shares and the total (original + delta) is 4.0. -/
theorem processStockSplit_adjusts_active_events_witness :
    (∃ m, 1 ≤ m
      ∧ (processStockSplit "ACME" 1 2 10 100
          ⟨[⟨0, "u1", "ACME", 2, 0, some "K0", RStatus.ACTIVE, none, none,
              none⟩], [], 1⟩).events.filter
          (fun x => decide (x.parentRewardId = some 0))
          = [splitAdjEvt "ACME" 1 2 10 100 m
              ⟨0, "u1", "ACME", 2, 0, some "K0", RStatus.ACTIVE, none, none,
                none⟩]
      ∧ (splitAdjEvt "ACME" 1 2 10 100 m
          ⟨0, "u1", "ACME", 2, 0, some "K0", RStatus.ACTIVE, none, none,
            none⟩).quantity = 2 * ((2 : ℚ) / 1) - 2)
    ∧ (2 : ℚ) * ((2 : ℚ) / 1) - 2 = 2
    ∧ (2 : ℚ) + (2 * ((2 : ℚ) / 1) - 2) = 4 := by
  refine ⟨?_, by norm_num, by norm_num⟩
  obtain ⟨m, hm, hfa, _, hq, _, _, _, _, _, _, _, _⟩ :=
    processStockSplit_adjusts_active_events "ACME" 1 2 10 100
      ⟨[⟨0, "u1", "ACME", 2, 0, some "K0", RStatus.ACTIVE, none, none,
          none⟩], [], 1⟩
      ⟨0, "u1", "ACME", 2, 0, some "K0", RStatus.ACTIVE, none, none, none⟩
      (by simp) rfl rfl (by norm_num) (by simp) (by simp)
      (by simp) (by simp)
  exact ⟨m, hm, hfa, hq⟩

theorem round4_ge_one {x : ℚ} (hx : 1 ≤ x) : 1 ≤ round4 x := by
  unfold round4
  rw [le_div_iff₀ (by norm_num : (0 : ℚ) < 10000)]
  have h2 : (10000 : ℤ) ≤ round (x * 10000) := by
    rw [round_eq]
    refine Int.le_floor.mpr ?_
    push_cast
    linarith
  calc (1 : ℚ) * 10000 = ((10000 : ℤ) : ℚ) := by norm_num
    _ ≤ (round (x * 10000) : ℚ) := by exact_mod_cast h2

theorem fetchAndStore_price (sym : String) (now : Int) (rand : ℚ)
    (s : PriceSt) : 1 ≤ (fetchAndStore sym now rand s).1 := by
  simp only [fetchAndStore]
  exact round4_ge_one (le_max_right _ _)

theorem fetchAndStore_cacheWF (sym : String) (now : Int) (rand : ℚ)
    (s : PriceSt) (hWF : cacheWF s) :
    cacheWF (fetchAndStore sym now rand s).2 := by
  intro p hp
  simp only [fetchAndStore, cacheSet, List.mem_cons] at hp
  rcases hp with rfl | hp
  · exact round4_ge_one (le_max_right _ _)
  · exact hWF p (List.mem_of_mem_filter hp)

theorem cacheLookup_wf {sym : String} {s : PriceSt} {v : ℚ × Int}
    (hWF : cacheWF s) (h : cacheLookup sym s.priceCache = some v) :
    1 ≤ v.1 := by
  unfold cacheLookup at h
  cases hf : s.priceCache.find? (fun p => decide (p.1 = sym)) with
  | none => rw [hf] at h; simp at h
  | some entry =>
      rw [hf] at h
      simp only [Option.map_some', Option.some.injEq] at h
      have hmem := List.mem_of_find?_eq_some hf
      have := hWF entry hmem
      rw [h] at this
      exact this

/-- Claim C9: `getLatestPrice` never returns a value at or below 0 (any
returned price is positive, given the invariant that all cached prices are
at least 1, which every path preserves), and as long as the cache entry of
the symbol is younger than the 5-minute TTL, every call returns that same
cached value and leaves the state unchanged — so two calls within the TTL
window agree. -/
theorem getLatestPrice_positive_and_cached_stable :
    (∀ (stockSymbol : String) (now : Int) (rand : ℚ) (dbOk : Bool)
        (s : PriceSt) (p : ℚ) (s' : PriceSt),
      cacheWF s → getLatestPrice stockSymbol now rand dbOk s = some (p, s') →
      0 < p ∧ cacheWF s')
    ∧ (∀ (stockSymbol : String) (now₁ now₂ : Int) (r₁ r₂ : ℚ)
        (d₁ d₂ : Bool) (s : PriceSt) (p : ℚ) (ts : Int),
      cacheLookup (normSym stockSymbol) s.priceCache = some (p, ts) →
      now₁ - ts < CACHE_TTL → now₂ - ts < CACHE_TTL →
      getLatestPrice stockSymbol now₁ r₁ d₁ s = some (p, s)
        ∧ getLatestPrice stockSymbol now₂ r₂ d₂ s = some (p, s)) := by
  constructor
  · intro stockSymbol now rand dbOk s p s' hWF h
    cases hc : cacheLookup (normSym stockSymbol) s.priceCache with
    | some cached =>
        simp only [getLatestPrice, hc] at h
        have hcv : 1 ≤ cached.1 := cacheLookup_wf hWF hc
        have hfp : 0 < (fetchAndStore (normSym stockSymbol) now rand s).1 :=
          lt_of_lt_of_le zero_lt_one (fetchAndStore_price _ now rand s)
        have hfw : cacheWF (fetchAndStore (normSym stockSymbol) now rand
            s).2 := fetchAndStore_cacheWF _ now rand s hWF
        by_cases htl : now - cached.2 < CACHE_TTL
        · rw [if_pos htl] at h
          simp only [Option.some.injEq, Prod.mk.injEq] at h
          obtain ⟨rfl, rfl⟩ := h
          exact ⟨lt_of_lt_of_le zero_lt_one hcv, hWF⟩
        · rw [if_neg htl] at h
          cases dbOk with
          | true =>
              simp only [if_true, Option.some.injEq] at h
              rw [h] at hfp hfw
              exact ⟨hfp, hfw⟩
          | false =>
              simp only [Bool.false_eq_true, if_false, Option.some.injEq,
                Prod.mk.injEq] at h
              obtain ⟨rfl, rfl⟩ := h
              exact ⟨lt_of_lt_of_le zero_lt_one hcv, hWF⟩
    | none =>
        simp only [getLatestPrice, hc] at h
        have hfp : 0 < (fetchAndStore (normSym stockSymbol) now rand s).1 :=
          lt_of_lt_of_le zero_lt_one (fetchAndStore_price _ now rand s)
        have hfw : cacheWF (fetchAndStore (normSym stockSymbol) now rand
            s).2 := fetchAndStore_cacheWF _ now rand s hWF
        cases dbOk with
        | true =>
            simp only [if_true, Option.some.injEq] at h
            rw [h] at hfp hfw
            exact ⟨hfp, hfw⟩
        | false => simp at h
  · intro stockSymbol now₁ now₂ r₁ r₂ d₁ d₂ s p ts h hts1 hts2
    constructor
    · simp only [getLatestPrice, h]
      rw [if_pos hts1]
    · simp only [getLatestPrice, h]
      rw [if_pos hts2]

/-- Witness for C9: a cache entry of price 2 cached at time 0, read at
times 100 and 200 (both inside the TTL window), with different randomness
and database availability on the two calls. -/
theorem getLatestPrice_positive_and_cached_stable_witness :
    ((0 : ℚ) < 2 ∧ cacheWF ⟨[("ACME", 2, 0)], []⟩)
    ∧ getLatestPrice "ACME" 100 (1 / 2) true ⟨[("ACME", 2, 0)], []⟩
        = some (2, ⟨[("ACME", 2, 0)], []⟩)
    ∧ getLatestPrice "ACME" 200 (1 / 3) false ⟨[("ACME", 2, 0)], []⟩
        = some (2, ⟨[("ACME", 2, 0)], []⟩) := by
  have hlk : cacheLookup (normSym "ACME")
      ((⟨[("ACME", 2, 0)], []⟩ : PriceSt)).priceCache = some (2, 0) := by
    decide
  obtain ⟨h1, h2⟩ := getLatestPrice_positive_and_cached_stable.2 "ACME"
    100 200 (1 / 2) (1 / 3) true false ⟨[("ACME", 2, 0)], []⟩ 2 0 hlk
    (by decide) (by decide)
  exact ⟨getLatestPrice_positive_and_cached_stable.1 "ACME" 100 (1 / 2)
    true ⟨[("ACME", 2, 0)], []⟩ 2 ⟨[("ACME", 2, 0)], []⟩
    (by unfold cacheWF; decide) h1, h1, h2⟩

end StockProject
